import Mathlib

/-!
Shallow embedding of the journaling backend's two core derivation engines
(`generate_doodle` and `insights_summary` from `main.py`), together with
theorems settling the specification claims about them.

Loosely-typed JSON-ish metric values are modelled by `Val`; Python dicts
(which preserve insertion order and have unique keys) are modelled by
association lists whose update functions keep an existing key in place and
append a fresh key at the end, matching dict assignment semantics.
-/

namespace Journaling

/-- A loosely-typed metric value: a string, a number (modelled as a rational,
standing for the numeric value carried by a Python int/float), a boolean,
or null. -/
inductive Val where
  | str (s : String)
  | num (q : ℚ)
  | bool (b : Bool)
  | null
deriving DecidableEq

/-- `getVal m k` is Python's `m.get(k)` on an association list modelling a
dict: the value at the first (unique) matching key, else `none`. -/
def getVal (m : List (String × Val)) (k : String) : Option Val :=
  match m with
  | [] => none
  | (k1, v) :: rest => if k1 = k then some v else getVal rest k

/-- ASCII lower-casing of one character, as Python's `str.lower` acts on the
ASCII range (the only range relevant to the token character class). -/
def pyLowerChar (c : Char) : Char :=
  if 'A' ≤ c ∧ c ≤ 'Z' then Char.ofNat (c.toNat + 32) else c

/-- `pyLowerStr s` models `s.lower()`. -/
def pyLowerStr (s : String) : String :=
  String.mk (s.toList.map pyLowerChar)

/-- The apostrophe character, `chr(39)`. -/
def aposChar : Char := Char.ofNat 39

/-- Membership in the regex character class of the extraction rule in
`main.py`: a token character is an ASCII letter or an apostrophe. -/
def isTokChar (c : Char) : Bool :=
  ('a' ≤ c ∧ c ≤ 'z') ∨ ('A' ≤ c ∧ c ≤ 'Z') ∨ c = aposChar

/-- Worker for `tokenize`: `acc` holds the characters of the current partial
token in reverse. Collects maximal runs of token characters. -/
def tokenizeAux : List Char → List Char → List String
  | [], acc => if acc.isEmpty then [] else [String.mk acc.reverse]
  | c :: cs, acc =>
    if isTokChar c then tokenizeAux cs (c :: acc)
    else if acc.isEmpty then tokenizeAux cs []
    else String.mk acc.reverse :: tokenizeAux cs []

/-- All maximal runs of ASCII letters and apostrophes, in order: the
embedding of Python's `re.findall` with that character class. -/
def tokenize (s : String) : List String :=
  tokenizeAux s.toList []

/-- The fixed stop-word set of `generate_doodle` (written in the source as a
space-separated string passed to `split()`). -/
def stopWords : List String :=
  ["the", "a", "an", "and", "or", "but", "if", "to", "of", "for", "with",
   "on", "in", "at", "from", "by", "is", "are", "am", "was", "were", "be",
   "been", "being", "i", "me", "my", "we", "our", "you", "your", "they",
   "their", "it", "its", "this", "that", "these", "those"]

/-- One step of building a `Counter`: bump the count of `w`, keeping an
existing key in place and appending a new key at the end, exactly like a
Python dict update. -/
def counterAdd (c : List (String × Nat)) (w : String) : List (String × Nat) :=
  match c with
  | [] => [(w, 1)]
  | (k, n) :: rest => if k = w then (k, n + 1) :: rest else (k, n) :: counterAdd rest w

/-- `counter ws` models `collections.Counter(ws)`: each distinct element in
first-seen order, paired with its number of occurrences. -/
def counter (ws : List String) : List (String × Nat) :=
  ws.foldl counterAdd []

/-- The ranking order used by `Counter.most_common`: on index-decorated
count entries, `a` precedes `b` when `a` has the strictly larger count, or
equal counts and `a` appeared no later. Decorating with the position in the
counter makes the documented stability of `most_common` explicit. -/
def mcLe (a b : Nat × String × Nat) : Prop :=
  b.2.2 < a.2.2 ∨ (a.2.2 = b.2.2 ∧ a.1 ≤ b.1)

instance : DecidableRel mcLe := fun a b => by
  unfold mcLe; infer_instance

instance : IsTotal (Nat × String × Nat) mcLe where
  total a b := by unfold mcLe; omega

instance : IsTrans (Nat × String × Nat) mcLe where
  trans a b c hab hbc := by unfold mcLe at hab hbc ⊢; omega

/-- Embedding of `Counter.most_common n`: the count entries sorted by
decreasing count, ties kept in first-seen order (the documented behavior:
a stable descending sort of the insertion-ordered items), truncated to `n`.
Realized as a sort of the index-decorated entries by the total order
`mcLe`, which has no ties because positions are distinct. -/
def mostCommon (n : Nat) (c : List (String × Nat)) : List (String × Nat) :=
  ((List.insertionSort mcLe c.enum).take n).map (·.2)

/-- An entry of the static symbol library: a category and a symbol name. -/
structure SymEntry where
  type : String
  name : String
deriving DecidableEq

/-- The fixed keyword → symbol table of `generate_doodle`. -/
def library : List (String × SymEntry) :=
  [("coffee", ⟨"element", "coffee-cup"⟩),
   ("friend", ⟨"character", "friend"⟩),
   ("friends", ⟨"character", "friends"⟩),
   ("gym", ⟨"element", "dumbbell"⟩),
   ("run", ⟨"element", "running-shoe"⟩),
   ("walk", ⟨"element", "footsteps"⟩),
   ("family", ⟨"character", "family"⟩),
   ("work", ⟨"element", "laptop"⟩),
   ("study", ⟨"element", "book"⟩),
   ("dog", ⟨"character", "dog"⟩),
   ("cat", ⟨"character", "cat"⟩),
   ("movie", ⟨"element", "film-reel"⟩),
   ("nature", ⟨"element", "leaf"⟩),
   ("sleep", ⟨"element", "moon"⟩),
   ("sun", ⟨"element", "sun"⟩),
   ("beach", ⟨"element", "wave"⟩),
   ("party", ⟨"element", "balloons"⟩),
   ("cook", ⟨"element", "chef-hat"⟩),
   ("bake", ⟨"element", "cupcake"⟩),
   ("happy", ⟨"character", "smiley"⟩),
   ("grateful", ⟨"element", "sparkles"⟩)]

/-- Symbol resolution: `library[w]` when present, otherwise the tag
fallback `{"type": "tag", "name": w}`. -/
def resolveSym (w : String) : SymEntry :=
  match library.lookup w with
  | some e => e
  | none => ⟨"tag", w⟩

/-- One item of the returned doodle canvas. -/
structure DoodleItem where
  type : String
  name : String
  x : Nat
  y : Nat
  size : Nat
deriving DecidableEq

/-- Grid placement of the resolved element at rank `i` (`cols = 4` in the
source). -/
def mkItem (i : Nat) (e : SymEntry) : DoodleItem :=
  ⟨e.type, e.name, (i % 4) * 96 + 32, (i / 4) * 96 + 32, 64⟩

/-- The request body of `POST /api/doodle/generate`. `answers` and
`metrics` are dicts, modelled as insertion-ordered association lists. -/
structure DoodleRequest where
  text : Option String
  answers : List (String × String)
  metrics : List (String × Val)

/-- The doodle value returned by `generate_doodle`. -/
structure Doodle where
  palette : String
  items : List DoodleItem
  keywords : List String
deriving DecidableEq

/-- Whether the looked-up mood value selects the sunset palette: Python's
`v in ("happy", "grateful", "excited")`, which is `False` for a missing key
(`None`) and for non-string values. -/
def sunsetMood : Option Val → Bool
  | some (Val.str s) => s = "happy" ∨ s = "grateful" ∨ s = "excited"
  | _ => false

/-- The surviving tokens of a request: the corpus (text, or empty, followed
by the answer values, space-joined) lower-cased, tokenized, with stop words
and tokens of length ≤ 2 dropped. -/
def wordsOf (req : DoodleRequest) : List String :=
  let content := String.intercalate " " ((req.text.getD "") :: req.answers.map (·.2))
  let tokens := tokenize (pyLowerStr content)
  tokens.filter (fun t => !(stopWords.contains t) && t.length > 2)

/-- Embedding of `generate_doodle` from `main.py`. -/
def generate_doodle (req : DoodleRequest) : Doodle :=
  let top := (mostCommon 8 (counter (wordsOf req))).map (·.1)
  let elements := top.map resolveSym
  let canvas := elements.enum.map (fun p => mkItem p.1 p.2)
  let palette := if sunsetMood (getVal req.metrics "mood") then "sunset" else "midnight"
  ⟨palette, canvas, top⟩

/-- One journal record as seen by the insights aggregator: an optional mood
and a loosely-typed metrics dict. A missing `mood` key and a JSON null are
both modelled by `none`; a missing/null `metrics` (normalized by
`or {}` in the source) is modelled by the empty list. -/
structure JournalRecord where
  mood : Option String
  metrics : List (String × Val)

/-- The mood label of a record: `(e.get("mood") or "unknown").lower()` —
a missing, null or empty mood falls back to `"unknown"` by falsiness. -/
def moodLabel (m : Option String) : String :=
  pyLowerStr (match m with
    | none => "unknown"
    | some s => if s = "" then "unknown" else s)

/-- A Python float as produced by `float(v)` in the aggregation loop:
finite values are idealized as exact rationals (IEEE rounding is not
modelled), and the special values positive infinity, negative infinity
and nan are represented explicitly. -/
inductive PyNum where
  | finite (q : ℚ)
  | pinf
  | ninf
  | nan
deriving DecidableEq

/-- Float addition on `PyNum`: nan propagates, opposite infinities give
nan, an infinity absorbs everything else, and finite addition is the exact
rational sum. -/
def pyAdd : PyNum → PyNum → PyNum
  | PyNum.nan, _ => PyNum.nan
  | _, PyNum.nan => PyNum.nan
  | PyNum.pinf, PyNum.ninf => PyNum.nan
  | PyNum.ninf, PyNum.pinf => PyNum.nan
  | PyNum.pinf, _ => PyNum.pinf
  | _, PyNum.pinf => PyNum.pinf
  | PyNum.ninf, _ => PyNum.ninf
  | _, PyNum.ninf => PyNum.ninf
  | PyNum.finite a, PyNum.finite b => PyNum.finite (a + b)

/-- Python's `sum` over a list of floats (left fold starting from the
integer 0). -/
def pySum (l : List PyNum) : PyNum := l.foldl pyAdd (PyNum.finite 0)

/-- Division of a float by a (positive) list length. -/
def pyDivNat (x : PyNum) (n : Nat) : PyNum :=
  match x with
  | PyNum.finite q => PyNum.finite (q / (n : ℚ))
  | PyNum.pinf => PyNum.pinf
  | PyNum.ninf => PyNum.ninf
  | PyNum.nan => PyNum.nan

/-- The whitespace stripped by Python's `float(str)`
(`Py_UNICODE_ISSPACE`): ASCII control spaces, the space character, and the
Unicode space code points. -/
def pyIsSpace (c : Char) : Bool :=
  let n := c.toNat
  (9 ≤ n ∧ n ≤ 13) ∨ (28 ≤ n ∧ n ≤ 31) ∨ n = 32 ∨ n = 133 ∨ n = 160 ∨ n = 5760 ∨
    (8192 ≤ n ∧ n ≤ 8202) ∨ n = 8232 ∨ n = 8233 ∨ n = 8239 ∨ n = 8287 ∨ n = 12288

/-- Leading and trailing whitespace removal, as `float(str)` performs
before parsing. -/
def stripPySpace (cs : List Char) : List Char :=
  ((cs.dropWhile pyIsSpace).reverse.dropWhile pyIsSpace).reverse

/-- Validation and removal of digit-group underscores, following CPython's
handling of numeric strings with underscores: every underscore must be
immediately preceded and followed by a decimal digit, and is then removed
before parsing. `prev` is the previously seen character. -/
def stripUnders (prev : Option Char) : List Char → Option (List Char)
  | [] => some []
  | c :: cs =>
    if c = '_' then
      match prev, cs with
      | some p, d :: _ =>
        if p.isDigit ∧ d.isDigit then stripUnders (some c) cs else none
      | _, _ => none
    else
      (stripUnders (some c) cs).map (c :: ·)

/-- Value of a run of decimal digit characters. -/
def digitsVal (cs : List Char) : Nat :=
  cs.foldl (fun n c => 10 * n + (c.toNat - 48)) 0

/-- The mantissa value: integer digits plus an optional fractional digit
run. -/
def evalDecimal (ip fp : List Char) : ℚ :=
  if fp.isEmpty then (digitsVal ip : ℚ)
  else (digitsVal ip : ℚ) + (digitsVal fp : ℚ) / ((10 : ℚ) ^ fp.length)

/-- Parse of the optional exponent suffix `(e|E)[sign]digits`; yields 0
when the suffix is absent, fails when it is malformed or followed by
anything. -/
def parseExp : List Char → Option Int
  | [] => some 0
  | c :: cs =>
    if c = 'e' ∨ c = 'E' then
      match cs with
      | '+' :: ds =>
        if ¬ds.isEmpty ∧ ds.all Char.isDigit then some (digitsVal ds : Int) else none
      | '-' :: ds =>
        if ¬ds.isEmpty ∧ ds.all Char.isDigit then some (-(digitsVal ds : Int)) else none
      | ds =>
        if ¬ds.isEmpty ∧ ds.all Char.isDigit then some (digitsVal ds : Int) else none
    else none

/-- Parse of the numeric part after the sign: decimal digits with an
optional decimal point and an optional exponent; at least one mantissa
digit is required. (When the exponent is 0 the redundant multiplication by
`10 ^ 0` is skipped, so concrete literals reduce by plain evaluation.) -/
def parseNumber (cs : List Char) : Option ℚ :=
  let ip := cs.takeWhile Char.isDigit
  let r1 := cs.dropWhile Char.isDigit
  match r1 with
  | '.' :: r2 =>
    let fp := r2.takeWhile Char.isDigit
    let r3 := r2.dropWhile Char.isDigit
    if ip.isEmpty ∧ fp.isEmpty then none
    else
      match parseExp r3 with
      | some e => some (if e = 0 then evalDecimal ip fp else evalDecimal ip fp * (10 : ℚ) ^ e)
      | none => none
  | _ =>
    if ip.isEmpty then none
    else
      match parseExp r1 with
      | some e => some (if e = 0 then evalDecimal ip [] else evalDecimal ip [] * (10 : ℚ) ^ e)
      | none => none

/-- Python's `float(str)`: strip surrounding whitespace, validate and drop
digit-group underscores, read an optional sign, then either the
case-insensitive special words `inf`/`infinity`/`nan` or a decimal literal
with optional fraction and exponent. Finite values are exact rationals
(IEEE rounding is not modelled, and neither are non-ASCII decimal digits,
which Python first transliterates to ASCII). -/
def parsePyFloat (s : String) : Option PyNum :=
  match stripUnders none (stripPySpace s.toList) with
  | none => none
  | some cs0 =>
    let signed : Bool × List Char :=
      match cs0 with
      | '+' :: cs => (false, cs)
      | '-' :: cs => (true, cs)
      | cs => (false, cs)
    let low := signed.2.map pyLowerChar
    if low = ['i', 'n', 'f'] ∨ low = ['i', 'n', 'f', 'i', 'n', 'i', 't', 'y'] then
      some (if signed.1 then PyNum.ninf else PyNum.pinf)
    else if low = ['n', 'a', 'n'] then
      some PyNum.nan
    else
      match parseNumber signed.2 with
      | some q => some (PyNum.finite (if signed.1 then -q else q))
      | none => none

/-- The fallible coercion `float(v)` of the aggregation loop: numbers pass
through, booleans become 0 or 1, strings are parsed, null raises (is
rejected). -/
def coerceFloat : Val → Option PyNum
  | Val.num q => some (PyNum.finite q)
  | Val.bool b => some (PyNum.finite (if b then 1 else 0))
  | Val.str s => parsePyFloat s
  | Val.null => none

/-- `metrics_acc.setdefault(k, [])`: insert `k` with an empty list when it
is absent (at the end, as dict insertion does); leave the dict unchanged
when it is present. -/
def setdefaultNil (acc : List (String × List PyNum)) (k : String) :
    List (String × List PyNum) :=
  match acc with
  | [] => [(k, [])]
  | (k1, l) :: rest =>
    if k1 = k then (k1, l) :: rest else (k1, l) :: setdefaultNil rest k

/-- `.append(x)` on the list stored at key `k` (present after the
preceding `setdefault`). -/
def appendAt (acc : List (String × List PyNum)) (k : String) (x : PyNum) :
    List (String × List PyNum) :=
  match acc with
  | [] => []
  | (k1, l) :: rest =>
    if k1 = k then (k1, l ++ [x]) :: rest else (k1, l) :: appendAt rest k x

/-- Processing of one `(k, v)` metric pair: the `try`/`except` body
`metrics_acc.setdefault(k, []).append(float(v))`. Python evaluates
`setdefault(k, [])` before `float(v)`, so a failing coercion still leaves
the key registered — with an empty list when the key was fresh — and only
the append is skipped. -/
def accStep (a : List (String × List PyNum)) (kv : String × Val) :
    List (String × List PyNum) :=
  let a1 := setdefaultNil a kv.1
  match coerceFloat kv.2 with
  | some x => appendAt a1 kv.1 x
  | none => a1

/-- One iteration of the aggregation loop of `insights_summary`: bump the
record's mood label, then fold its metric pairs into the accumulator. -/
def insightsStep (st : List (String × Nat) × List (String × List PyNum))
    (e : JournalRecord) :
    List (String × Nat) × List (String × List PyNum) :=
  (counterAdd st.1 (moodLabel e.mood), e.metrics.foldl accStep st.2)

/-- The summary returned by `insights_summary`. -/
structure InsightsSummary where
  mood : List (String × Nat)
  metricsAvg : List (String × PyNum)
  count : Nat
deriving DecidableEq

/-- Embedding of the aggregation core of `insights_summary` from `main.py`,
applied to the already-fetched record sequence. The defensive
`if v else 0` branch of the average is kept — it is reachable, because a
key whose every value fails coercion stays registered with an empty
list. -/
def insights_summary (records : List JournalRecord) : InsightsSummary :=
  let st := records.foldl insightsStep ([], [])
  ⟨st.1,
   st.2.map (fun kl =>
     (kl.1, if kl.2.isEmpty then PyNum.finite 0 else pyDivNat (pySum kl.2) kl.2.length)),
   records.length⟩

/-! ### Helper lemmas about the doodle generator -/

lemma keywords_def (req : DoodleRequest) :
    (generate_doodle req).keywords = (mostCommon 8 (counter (wordsOf req))).map (·.1) := rfl

lemma items_def (req : DoodleRequest) :
    (generate_doodle req).items =
      ((((mostCommon 8 (counter (wordsOf req))).map (·.1)).map resolveSym).enum).map
        (fun p => mkItem p.1 p.2) := rfl

lemma palette_def (req : DoodleRequest) :
    (generate_doodle req).palette =
      if sunsetMood (getVal req.metrics "mood") then "sunset" else "midnight" := rfl

lemma length_mostCommon (n : Nat) (c : List (String × Nat)) :
    (mostCommon n c).length ≤ n := by
  unfold mostCommon
  rw [List.length_map, List.length_take]
  exact Nat.min_le_left _ _

lemma keywords_length_le (req : DoodleRequest) :
    (generate_doodle req).keywords.length ≤ 8 := by
  rw [keywords_def, List.length_map]
  exact length_mostCommon 8 _

lemma items_length (req : DoodleRequest) :
    (generate_doodle req).items.length = (generate_doodle req).keywords.length := by
  rw [items_def, keywords_def, List.length_map, List.enum_length, List.length_map]

lemma mem_of_mem_mostCommon {p : String × Nat} {n : Nat} {c : List (String × Nat)}
    (h : p ∈ mostCommon n c) : p ∈ c := by
  unfold mostCommon at h
  obtain ⟨q, hq, rfl⟩ := List.mem_map.mp h
  have hq2 : q ∈ List.insertionSort mcLe c.enum :=
    (List.take_sublist _ _).mem hq
  have hq3 : q ∈ c.enum := (List.perm_insertionSort mcLe c.enum).mem_iff.mp hq2
  have hq4 : q.2 ∈ c.enum.map Prod.snd := List.mem_map_of_mem _ hq3
  rwa [List.enum_map_snd] at hq4

lemma counterAdd_keys (c : List (String × Nat)) (w : String) :
    (counterAdd c w).map (·.1) =
      if w ∈ c.map (·.1) then c.map (·.1) else c.map (·.1) ++ [w] := by
  induction c with
  | nil => simp [counterAdd]
  | cons p rest ih =>
    obtain ⟨k, n⟩ := p
    by_cases hk : k = w
    · subst hk
      simp [counterAdd]
    · have hk2 : ¬w = k := fun h => hk h.symm
      simp only [counterAdd, if_neg hk, List.map_cons, List.mem_cons]
      rw [ih]
      by_cases hw : w ∈ rest.map (·.1)
      · simp [hw]
      · simp [hw, hk2]

lemma mem_of_mem_keys_foldl :
    ∀ (ws : List String) (c : List (String × Nat)) (w : String),
      w ∈ (ws.foldl counterAdd c).map (·.1) → w ∈ c.map (·.1) ∨ w ∈ ws := by
  intro ws
  induction ws with
  | nil => intro c w h; exact Or.inl h
  | cons x rest ih =>
    intro c w h
    rcases ih (counterAdd c x) w h with h1 | h1
    · rw [counterAdd_keys] at h1
      split at h1
      · exact Or.inl h1
      · rcases List.mem_append.mp h1 with h2 | h2
        · exact Or.inl h2
        · exact Or.inr (List.mem_cons.mpr (Or.inl (List.mem_singleton.mp h2)))
    · exact Or.inr (List.mem_cons.mpr (Or.inr h1))

lemma mem_words_of_mem_counter {w : String} {ws : List String}
    (h : w ∈ (counter ws).map (·.1)) : w ∈ ws := by
  rcases mem_of_mem_keys_foldl ws [] w h with h1 | h1
  · simp at h1
  · exact h1

lemma nodup_keys_foldl :
    ∀ (ws : List String) (c : List (String × Nat)),
      (c.map (·.1)).Nodup → ((ws.foldl counterAdd c).map (·.1)).Nodup := by
  intro ws
  induction ws with
  | nil => intro c h; exact h
  | cons x rest ih =>
    intro c h
    refine ih (counterAdd c x) ?_
    rw [counterAdd_keys]
    split
    · exact h
    · rename_i hx
      simp [List.nodup_append, h, hx]

lemma counter_keys_nodup (ws : List String) : ((counter ws).map (·.1)).Nodup :=
  nodup_keys_foldl ws [] (by simp)

lemma keywords_nodup (req : DoodleRequest) : (generate_doodle req).keywords.Nodup := by
  rw [keywords_def]
  unfold mostCommon
  rw [List.map_map]
  have hperm :
      List.Perm
        ((List.insertionSort mcLe (counter (wordsOf req)).enum).map
          ((·.1) ∘ (·.2) : Nat × String × Nat → String))
        (((counter (wordsOf req)).enum).map
          ((·.1) ∘ (·.2) : Nat × String × Nat → String)) :=
    (List.perm_insertionSort mcLe _).map _
  have henum :
      ((counter (wordsOf req)).enum).map ((·.1) ∘ (·.2) : Nat × String × Nat → String)
        = (counter (wordsOf req)).map (·.1) := by
    have h1 : ((counter (wordsOf req)).enum).map ((·.1) ∘ (·.2) : Nat × String × Nat → String)
        = (((counter (wordsOf req)).enum).map Prod.snd).map (·.1) :=
      (List.map_map _ _ _).symm
    rw [h1, List.enum_map_snd]
  have hnodup :
      ((List.insertionSort mcLe (counter (wordsOf req)).enum).map
        ((·.1) ∘ (·.2) : Nat × String × Nat → String)).Nodup := by
    refine hperm.nodup_iff.mpr ?_
    rw [henum]
    exact counter_keys_nodup _
  exact ((List.take_sublist _ _).map _).nodup hnodup

lemma items_get (req : DoodleRequest) (i : Nat) (h : i < (generate_doodle req).items.length)
    (h2 : i < (generate_doodle req).keywords.length) :
    (generate_doodle req).items.get ⟨i, h⟩ =
      mkItem i (resolveSym ((generate_doodle req).keywords.get ⟨i, h2⟩)) := by
  simp only [List.get_eq_getElem, items_def req, keywords_def req, List.getElem_map,
    List.getElem_enum]

lemma items_get? (req : DoodleRequest) (i : Nat) :
    (generate_doodle req).items[i]? =
      ((generate_doodle req).keywords[i]?).map (fun kw => mkItem i (resolveSym kw)) := by
  simp only [items_def req, keywords_def req, List.getElem?_map, List.getElem?_enum,
    Option.map_map]
  rfl

/-! ### Helper lemmas about tokenization -/

lemma char_le_iff {a b : Char} : a ≤ b ↔ a.toNat ≤ b.toNat := Iff.rfl

lemma toNat_char_ofNat {n : Nat} (h : n.isValidChar) : (Char.ofNat n).toNat = n := by
  rw [Char.ofNat, dif_pos h]
  rfl

lemma pyLowerChar_not_upper (c : Char) :
    ¬(('A' : Char) ≤ pyLowerChar c ∧ pyLowerChar c ≤ ('Z' : Char)) := by
  unfold pyLowerChar
  split
  · rename_i h
    have h65 : (65 : Nat) ≤ c.toNat := char_le_iff.mp h.1
    have h90 : c.toNat ≤ 90 := char_le_iff.mp h.2
    have hv : (c.toNat + 32).isValidChar := Or.inl (by omega)
    intro hc
    have hZ : (Char.ofNat (c.toNat + 32)).toNat ≤ 90 := char_le_iff.mp hc.2
    rw [toNat_char_ofNat hv] at hZ
    omega
  · rename_i h
    exact h

lemma isTokChar_cases {c : Char} (h : isTokChar c = true) :
    (('a' : Char) ≤ c ∧ c ≤ ('z' : Char)) ∨ (('A' : Char) ≤ c ∧ c ≤ ('Z' : Char)) ∨
      c = aposChar := by
  unfold isTokChar at h
  exact of_decide_eq_true h

lemma lowered_tokChar {c : Char} (h : isTokChar (pyLowerChar c) = true) :
    (('a' : Char) ≤ pyLowerChar c ∧ pyLowerChar c ≤ ('z' : Char)) ∨ pyLowerChar c = aposChar := by
  rcases isTokChar_cases h with h1 | h1 | h1
  · exact Or.inl h1
  · exact absurd h1 (pyLowerChar_not_upper c)
  · exact Or.inr h1

lemma tokenizeAux_chars (P : Char → Prop) :
    ∀ (cs acc : List Char), (∀ a ∈ acc, P a) →
      (∀ ch ∈ cs, isTokChar ch = true → P ch) →
      ∀ t ∈ tokenizeAux cs acc, ∀ ch ∈ t.toList, P ch := by
  intro cs
  induction cs with
  | nil =>
    intro acc hacc _ t ht ch hch
    unfold tokenizeAux at ht
    split at ht
    · simp at ht
    · rw [List.mem_singleton] at ht
      subst ht
      exact hacc ch (List.mem_reverse.mp hch)
  | cons c cs ih =>
    intro acc hacc hcs t ht ch hch
    unfold tokenizeAux at ht
    split at ht
    · rename_i h1
      refine ih (c :: acc) ?_ (fun a ha hta => hcs a (List.mem_cons_of_mem _ ha) hta) t ht ch hch
      intro a ha
      rcases List.mem_cons.mp ha with rfl | ha2
      · exact hcs a (List.mem_cons_self _ _) h1
      · exact hacc a ha2
    · split at ht
      · exact ih [] (by simp) (fun a ha hta => hcs a (List.mem_cons_of_mem _ ha) hta) t ht ch hch
      · rcases List.mem_cons.mp ht with rfl | ht2
        · exact hacc ch (List.mem_reverse.mp hch)
        · exact ih [] (by simp) (fun a ha hta => hcs a (List.mem_cons_of_mem _ ha) hta) t ht2 ch hch

lemma token_chars {s t : String} (ht : t ∈ tokenize (pyLowerStr s)) :
    ∀ ch ∈ t.toList, (('a' : Char) ≤ ch ∧ ch ≤ ('z' : Char)) ∨ ch = aposChar := by
  refine tokenizeAux_chars (fun ch => (('a' : Char) ≤ ch ∧ ch ≤ ('z' : Char)) ∨ ch = aposChar)
    (pyLowerStr s).toList [] (by simp) ?_ t ht
  intro ch hch htc
  have hmap : ch ∈ s.toList.map pyLowerChar := hch
  obtain ⟨c0, _, rfl⟩ := List.mem_map.mp hmap
  exact lowered_tokChar htc

/-! ### Helper lemmas about the insights aggregator -/

lemma counterAdd_sum (c : List (String × Nat)) (w : String) :
    ((counterAdd c w).map (·.2)).sum = ((c.map (·.2)).sum) + 1 := by
  induction c with
  | nil => simp [counterAdd]
  | cons p rest ih =>
    obtain ⟨k, n⟩ := p
    rw [counterAdd]
    split
    · simp
      omega
    · simp [ih]
      omega

lemma insightsFold_sum :
    ∀ (recs : List JournalRecord) (st : List (String × Nat) × List (String × List PyNum)),
      (((recs.foldl insightsStep st).1).map (·.2)).sum
        = ((st.1.map (·.2)).sum) + recs.length := by
  intro recs
  induction recs with
  | nil => intro st; simp
  | cons e rest ih =>
    intro st
    rw [List.foldl_cons, ih (insightsStep st e)]
    have h1 : (insightsStep st e).1 = counterAdd st.1 (moodLabel e.mood) := rfl
    rw [h1, counterAdd_sum]
    simp
    omega

lemma mem_keywords_mem_words {req : DoodleRequest} {kw : String}
    (h : kw ∈ (generate_doodle req).keywords) : kw ∈ wordsOf req := by
  rw [keywords_def] at h
  obtain ⟨p, hp, rfl⟩ := List.mem_map.mp h
  exact mem_words_of_mem_counter (List.mem_map_of_mem _ (mem_of_mem_mostCommon hp))

lemma mem_wordsOf {req : DoodleRequest} {kw : String} (h : kw ∈ wordsOf req) :
    kw ∈ tokenize (pyLowerStr
        (String.intercalate " " ((req.text.getD "") :: req.answers.map (·.2))))
      ∧ kw ∉ stopWords ∧ 2 < kw.length := by
  unfold wordsOf at h
  have h2 := List.mem_filter.mp h
  have h3 := h2.2
  simp only [Bool.and_eq_true, Bool.not_eq_true', List.contains, List.elem_eq_mem,
    decide_eq_true_eq, decide_eq_false_iff_not] at h3
  exact ⟨h2.1, h3.1, h3.2⟩

/-! ### Concrete inputs used by the specification's examples -/

/-- The doodle request whose corpus is the worked ranking example. -/
def coffeeReq : DoodleRequest := ⟨some "coffee coffee coffee friend friend gym", [], []⟩

/-- The doodle request whose corpus consists only of stop words and short
tokens. -/
def okReq : DoodleRequest := ⟨some "I am ok at it", [], []⟩

/-- The five-character word d-o-n-apostrophe-t. -/
def apostropheWord : String := "don" ++ String.mk [aposChar] ++ "t"

/-- The two-record sequence of the insights example: an upper-cased mood
with a coercible metric string, then a null mood with a non-numeric one. -/
def exampleRecords : List JournalRecord :=
  [⟨some "Happy", [("sleep", Val.str "7")]⟩, ⟨none, [("sleep", Val.str "bad")]⟩]

/-- A single record whose only metric value fails numeric coercion on a
fresh key. -/
def waterRecs : List JournalRecord :=
  [⟨none, [("water", Val.str "lots")]⟩]

/-! ### The claims -/

/-- C1: the returned keywords are the (at most 8) surviving tokens taken
from a reordering of the occurrence counter that is sorted by decreasing
count with ties broken by first-seen position (`mcLe` on index-decorated
entries), i.e. a permutation of the counter sorted by `mcLe`; and on the
corpus "coffee coffee coffee friend friend gym" the keywords are
["coffee", "friend", "gym"] with item 0 the element "coffee-cup" at
x = 32, y = 32, size = 64. -/
theorem C1_keywords_ranking (req : DoodleRequest) :
    ((generate_doodle req).keywords
        = ((List.insertionSort mcLe (counter (wordsOf req)).enum).take 8).map (fun p => p.2.1)
      ∧ List.Perm (List.insertionSort mcLe (counter (wordsOf req)).enum)
          (counter (wordsOf req)).enum
      ∧ List.Sorted mcLe (List.insertionSort mcLe (counter (wordsOf req)).enum))
    ∧ (generate_doodle coffeeReq).keywords = ["coffee", "friend", "gym"]
    ∧ (generate_doodle coffeeReq).items.head? = some ⟨"element", "coffee-cup", 32, 32, 64⟩ := by
  refine ⟨⟨?_, List.perm_insertionSort _ _, List.sorted_insertionSort _ _⟩, by decide, by decide⟩
  rw [keywords_def]
  unfold mostCommon
  rw [List.map_map]
  rfl

/-- C2 counterexample: `setdefault(k, [])` runs before `float(v)`, so the
single record with metrics {"water": "lots"} leaves the key "water" with
an empty accumulated value list, and the defensive empty-list branch puts
average 0 for it into the result — the claim as stated is false. -/
theorem C2_counterexample :
    (("water", ([] : List PyNum)) ∈ (waterRecs.foldl insightsStep ([], [])).2)
    ∧ (insights_summary waterRecs).metricsAvg = [("water", PyNum.finite 0)] := by
  constructor
  · decide
  · decide

/-- C2 (amended): a metric pair whose numeric coercion fails is skipped
silently and contributes no value, but it still registers its key — the
`setdefault` has already run, so the accumulator gains the key with an
empty list when it was fresh — and a key whose every value failed coercion
reaches metricAverages through the defensive branch with average 0, as the
"lots" example shows. -/
theorem C2_failed_coercion (a : List (String × List PyNum)) (kv : String × Val)
    (h : coerceFloat kv.2 = none) :
    accStep a kv = setdefaultNil a kv.1
    ∧ insights_summary waterRecs
        = ⟨[("unknown", 1)], [("water", PyNum.finite 0)], 1⟩ := by
  constructor
  · have h1 : accStep a kv =
        match coerceFloat kv.2 with
        | some x => appendAt (setdefaultNil a kv.1) kv.1 x
        | none => setdefaultNil a kv.1 := rfl
    rw [h1, h]
  · decide

/-- C2 witness: the pair ("water", "lots") fails coercion, so its
processing step only registers the key. -/
theorem C2_witness :
    (coerceFloat (Val.str "lots") = none)
    ∧ (accStep [] ("water", Val.str "lots") = setdefaultNil [] "water"
      ∧ insights_summary waterRecs
          = ⟨[("unknown", 1)], [("water", PyNum.finite 0)], 1⟩) :=
  ⟨by decide, C2_failed_coercion [] ("water", Val.str "lots") (by decide)⟩

/-- C3: for every input, at most 8 keywords are returned and the items
list has exactly the same length as the keywords list. -/
theorem C3_lengths (req : DoodleRequest) :
    (generate_doodle req).keywords.length ≤ 8
    ∧ (generate_doodle req).items.length = (generate_doodle req).keywords.length :=
  ⟨keywords_length_le req, items_length req⟩

/-- C4: the mood counters of the summary add up to the returned count,
which is the number of input records. -/
theorem C4_mood_sum (recs : List JournalRecord) :
    ((insights_summary recs).mood.map (·.2)).sum = (insights_summary recs).count
    ∧ (insights_summary recs).count = recs.length := by
  constructor
  · show (((recs.foldl insightsStep ([], [])).1).map (·.2)).sum = recs.length
    rw [insightsFold_sum recs ([], [])]
    simp
  · rfl

/-- C5: the palette is "sunset" exactly when the metrics dict maps "mood"
to one of the strings "happy", "grateful", "excited" (so "midnight" when
the key is absent), always one of the two palettes, and depends on
nothing but the metrics dict. -/
theorem C5_palette (t : Option String) (a : List (String × String)) (m : List (String × Val))
    (t2 : Option String) (a2 : List (String × String)) :
    ((generate_doodle ⟨t, a, m⟩).palette = "sunset" ↔
      getVal m "mood" = some (Val.str "happy") ∨ getVal m "mood" = some (Val.str "grateful")
        ∨ getVal m "mood" = some (Val.str "excited"))
    ∧ ((generate_doodle ⟨t, a, m⟩).palette = "sunset"
        ∨ (generate_doodle ⟨t, a, m⟩).palette = "midnight")
    ∧ (generate_doodle ⟨t, a, m⟩).palette = (generate_doodle ⟨t2, a2, m⟩).palette := by
  have hs : ∀ v : Option Val, sunsetMood v = true ↔
      (v = some (Val.str "happy") ∨ v = some (Val.str "grateful")
        ∨ v = some (Val.str "excited")) := by
    intro v
    match v with
    | none => simp [sunsetMood]
    | some (Val.str s) => simp [sunsetMood]
    | some (Val.num q) => simp [sunsetMood]
    | some (Val.bool b) => simp [sunsetMood]
    | some Val.null => simp [sunsetMood]
  cases hsm : sunsetMood (getVal m "mood") with
  | true =>
    have hp1 : (generate_doodle ⟨t, a, m⟩).palette = "sunset" := by
      simp [palette_def, hsm]
    have hp2 : (generate_doodle ⟨t2, a2, m⟩).palette = "sunset" := by
      simp [palette_def, hsm]
    exact ⟨⟨fun _ => (hs _).mp hsm, fun _ => hp1⟩, Or.inl hp1, hp1.trans hp2.symm⟩
  | false =>
    have hp1 : (generate_doodle ⟨t, a, m⟩).palette = "midnight" := by
      simp [palette_def, hsm]
    have hp2 : (generate_doodle ⟨t2, a2, m⟩).palette = "midnight" := by
      simp [palette_def, hsm]
    refine ⟨⟨fun hbad => ?_, fun hd => ?_⟩, Or.inr hp1, hp1.trans hp2.symm⟩
    · rw [hp1] at hbad
      exact absurd hbad (by decide)
    · have h1 := (hs _).mpr hd
      rw [hsm] at h1
      exact absurd h1 (by decide)

/-- C6: on the two-record example the summary lower-cases "Happy", counts
the null mood as "unknown", averages the coerced "7" to 7, silently drops
the non-numeric "bad", and reports count 2. -/
theorem C6_example :
    insights_summary exampleRecords
      = ⟨[("happy", 1), ("unknown", 1)], [("sleep", PyNum.finite 7)], 2⟩ := by
  have h2 : exampleRecords.foldl insightsStep ([], [])
      = ([("happy", 1), ("unknown", 1)], [("sleep", [PyNum.finite 7])]) := by decide
  unfold insights_summary
  rw [h2]
  simp [pySum, pyAdd, pyDivNat]
  rfl

/-- C7 counterexample: the corpus consisting of the single word
d-o-n-apostrophe-t yields that word as a keyword, and it is not a purely
alphabetic lowercase word, refuting the claim as stated. -/
theorem C7_counterexample :
    (generate_doodle ⟨some apostropheWord, [], []⟩).keywords = [apostropheWord]
    ∧ ¬(∀ kw ∈ (generate_doodle ⟨some apostropheWord, [], []⟩).keywords,
        ∀ ch ∈ kw.toList, ('a' : Char) ≤ ch ∧ ch ≤ ('z' : Char)) := by
  constructor
  · decide
  · decide

/-- C7 (amended): every returned keyword is a lowercase word over ASCII
letters and apostrophes, of length > 2, and not a stop word; and the
corpus "I am ok at it" yields no keywords. -/
theorem C7_keywords_shape (req : DoodleRequest) (kw : String)
    (h : kw ∈ (generate_doodle req).keywords) :
    ((∀ ch ∈ kw.toList, (('a' : Char) ≤ ch ∧ ch ≤ ('z' : Char)) ∨ ch = aposChar)
      ∧ 2 < kw.length ∧ kw ∉ stopWords)
    ∧ (generate_doodle okReq).keywords = [] := by
  refine ⟨?_, by decide⟩
  have hprops := mem_wordsOf (mem_keywords_mem_words h)
  exact ⟨token_chars hprops.1, hprops.2.2, hprops.2.1⟩

/-- C7 witness: the keyword "coffee" of the worked example satisfies the
amended shape. -/
theorem C7_witness :
    ("coffee" ∈ (generate_doodle coffeeReq).keywords)
    ∧ (((∀ ch ∈ "coffee".toList, (('a' : Char) ≤ ch ∧ ch ≤ ('z' : Char)) ∨ ch = aposChar)
        ∧ 2 < "coffee".length ∧ "coffee" ∉ stopWords)
      ∧ (generate_doodle okReq).keywords = []) :=
  ⟨by decide, C7_keywords_shape coffeeReq "coffee" (by decide)⟩

/-- C8: item `i` sits at `x = (i mod 4) * 96 + 32`,
`y = (i div 4) * 96 + 32`, with fixed size 64. -/
theorem C8_grid (req : DoodleRequest) (i : Nat)
    (h : i < (generate_doodle req).items.length) :
    ((generate_doodle req).items.get ⟨i, h⟩).x = (i % 4) * 96 + 32
    ∧ ((generate_doodle req).items.get ⟨i, h⟩).y = (i / 4) * 96 + 32
    ∧ ((generate_doodle req).items.get ⟨i, h⟩).size = 64 := by
  have h2 : i < (generate_doodle req).keywords.length := by
    rw [← items_length req]
    exact h
  rw [items_get req i h h2]
  exact ⟨rfl, rfl, rfl⟩

/-- C8 witness: item 0 of the worked example sits at (32, 32) with
size 64. -/
theorem C8_witness :
    (0 < (generate_doodle coffeeReq).items.length)
    ∧ (((generate_doodle coffeeReq).items.get ⟨0, by decide⟩).x = (0 % 4) * 96 + 32
      ∧ ((generate_doodle coffeeReq).items.get ⟨0, by decide⟩).y = (0 / 4) * 96 + 32
      ∧ ((generate_doodle coffeeReq).items.get ⟨0, by decide⟩).size = 64) :=
  ⟨by decide, C8_grid coffeeReq 0 (by decide)⟩

/-- C9: both core functions are total in the embedding and degrade
gracefully: the empty doodle request produces the midnight palette with no
items and no keywords, the empty record sequence produces the empty
summary, and on arbitrary inputs the outputs are well-formed (one of the
two palettes, at most 8 keywords, matching lengths, count and mood totals
equal to the number of records). -/
theorem C9_totality (req : DoodleRequest) (recs : List JournalRecord) :
    generate_doodle ⟨none, [], []⟩ = ⟨"midnight", [], []⟩
    ∧ insights_summary [] = ⟨[], [], 0⟩
    ∧ ((generate_doodle req).palette = "sunset" ∨ (generate_doodle req).palette = "midnight")
    ∧ (generate_doodle req).keywords.length ≤ 8
    ∧ (generate_doodle req).items.length = (generate_doodle req).keywords.length
    ∧ (insights_summary recs).count = recs.length
    ∧ ((insights_summary recs).mood.map (·.2)).sum = recs.length := by
  refine ⟨by decide, by decide, ?_, keywords_length_le req, items_length req, rfl, ?_⟩
  · rw [palette_def]
    cases sunsetMood (getVal req.metrics "mood") <;> simp
  · show (((recs.foldl insightsStep ([], [])).1).map (·.2)).sum = recs.length
    rw [insightsFold_sum recs ([], [])]
    simp

/-- C10: the keywords list never contains a duplicate, and item `i` is
exactly the symbol resolution of keyword `i` placed at grid slot `i`. -/
theorem C10_nodup_items (req : DoodleRequest) :
    (generate_doodle req).keywords.Nodup
    ∧ ∀ i : Nat, (generate_doodle req).items[i]?
        = ((generate_doodle req).keywords[i]?).map (fun kw => mkItem i (resolveSym kw)) :=
  ⟨keywords_nodup req, fun i => items_get? req i⟩

end Journaling
